import Mathlib

/-!
# Verification of the expense aggregation engine

Shallow embedding of the aggregation logic of `src/components/Dashboard.tsx`
(`calculateTotals` together with the derived values computed in the render:
transaction count, per-transaction average, and percentage share), and proofs
of the specified properties.

Modelling conventions:
* JavaScript `number` amounts are modelled as exact rationals (`Rat`); the
  spec treats amounts as decimal currency values.
* Dates are modelled as calendar dates (year, month, day) compared
  lexicographically, matching the spec's data model ("calendar date, no
  time-of-day semantics") and `date-fns`' `startOfMonth`/`endOfMonth` window.
  The reference "now" of the month window is passed explicitly as `asOf`.
* The JavaScript `Map` used for category grouping preserves insertion order
  and updates values in place; it is embedded as a list of `CategoryTotal`
  entries where an unseen name appends and a seen name updates in place.
* The one place the code can produce a non-finite number — the unguarded
  division `category.value / totalExpenses` in the percentage display — is
  modelled with an explicit `JSNum` type carrying `NaN`/`±Infinity`.
-/

/-- A calendar date: year, month (1–12), day (1–31). -/
structure CalDate where
  year : Nat
  month : Nat
  day : Nat
deriving DecidableEq, Repr

/-- The denormalized category snapshot carried by each expense row
(`category:categories (name, color, icon)` in the Supabase select). -/
structure Category where
  name : String
  color : String
  icon : String
deriving DecidableEq, Repr

/-- An expense record as consumed by `calculateTotals` (Dashboard.tsx:21–30). -/
structure Expense where
  id : String
  amount : Rat
  date : CalDate
  category : Category
deriving DecidableEq, Repr

/-- A per-category aggregate (Dashboard.tsx:32–37); `value` is the
accumulated amount. -/
structure CategoryTotal where
  name : String
  value : Rat
  color : String
  icon : String
deriving DecidableEq, Repr

/-- The complete derived output of the aggregation: the spec's
`DashboardSummary` (§3), assembled from Dashboard.tsx's three computed
state values plus the count and average computed in the render. -/
structure DashboardSummary where
  totalAmount : Rat
  monthlyAmount : Rat
  transactionCount : Nat
  averageAmount : Rat
  categoryTotals : List CategoryTotal
deriving DecidableEq, Repr

/-- Gregorian leap-year test, as implemented by `date-fns`. -/
def isLeapYear (y : Nat) : Bool :=
  (y % 4 == 0 && y % 100 != 0) || y % 400 == 0

/-- Number of days in a given month of a given year. -/
def daysInMonth (y m : Nat) : Nat :=
  if m = 2 then (if isLeapYear y then 29 else 28)
  else if m = 4 ∨ m = 6 ∨ m = 9 ∨ m = 11 then 30
  else 31

/-- Lexicographic order on calendar dates: the `expenseDate >= monthStart`
and `expenseDate <= monthEnd` comparisons of Dashboard.tsx:66. -/
def dateLe (a b : CalDate) : Prop :=
  a.year < b.year ∨
    (a.year = b.year ∧
      (a.month < b.month ∨ (a.month = b.month ∧ a.day ≤ b.day)))

instance (a b : CalDate) : Decidable (dateLe a b) := by
  unfold dateLe; infer_instance

/-- Strict lexicographic order on calendar dates. -/
def dateLt (a b : CalDate) : Prop :=
  a.year < b.year ∨
    (a.year = b.year ∧
      (a.month < b.month ∨ (a.month = b.month ∧ a.day < b.day)))

instance (a b : CalDate) : Decidable (dateLt a b) := by
  unfold dateLt; infer_instance

/-- `startOfMonth(asOf)`: the first calendar day of `asOf`'s month. -/
def monthStart (asOf : CalDate) : CalDate :=
  ⟨asOf.year, asOf.month, 1⟩

/-- `endOfMonth(asOf)`: the last calendar day of `asOf`'s month. -/
def monthEnd (asOf : CalDate) : CalDate :=
  ⟨asOf.year, asOf.month, daysInMonth asOf.year asOf.month⟩

/-- The month-window filter predicate of Dashboard.tsx:64–67:
`expenseDate >= monthStart && expenseDate <= monthEnd`. -/
def inMonth (asOf d : CalDate) : Prop :=
  dateLe (monthStart asOf) d ∧ dateLe d (monthEnd asOf)

instance (asOf d : CalDate) : Decidable (inMonth asOf d) := by
  unfold inMonth; infer_instance

/-- The calendar day after `d`. -/
def nextCalDay (d : CalDate) : CalDate :=
  if d.day < daysInMonth d.year d.month then ⟨d.year, d.month, d.day + 1⟩
  else if d.month < 12 then ⟨d.year, d.month + 1, 1⟩
  else ⟨d.year + 1, 1, 1⟩

/-- The calendar day before `d` (meaningful for dates after year 0). -/
def prevCalDay (d : CalDate) : CalDate :=
  if 1 < d.day then ⟨d.year, d.month, d.day - 1⟩
  else if 1 < d.month then ⟨d.year, d.month - 1, daysInMonth d.year (d.month - 1)⟩
  else ⟨d.year - 1, 12, 31⟩

/-- `expenseData.reduce((sum, expense) => sum + Number(expense.amount), 0)`
(Dashboard.tsx:52–55). -/
def totalOf (l : List Expense) : Rat :=
  l.foldl (fun sum e => sum + e.amount) 0

/-- The monthly total (Dashboard.tsx:63–68): filter to the month window,
then the same reduction. -/
def monthlyOf (asOf : CalDate) (l : List Expense) : Rat :=
  (l.filter fun e => decide (inMonth asOf e.date)).foldl
    (fun sum e => sum + e.amount) 0

/-- One step of the category-grouping loop (Dashboard.tsx:74–87): if the
record's category name is already present, add the amount to that entry in
place; otherwise append a new entry built from the record. -/
def insertCategory (acc : List CategoryTotal) (e : Expense) : List CategoryTotal :=
  if acc.any (fun c => c.name == e.category.name) then
    acc.map fun c =>
      if c.name == e.category.name then { c with value := c.value + e.amount } else c
  else
    acc ++ [⟨e.category.name, e.amount, e.category.color, e.category.icon⟩]

/-- The full category grouping (Dashboard.tsx:71–89): iterate the records in
input order through the map, then read the entries out in insertion order. -/
def categoryTotalsOf (l : List Expense) : List CategoryTotal :=
  l.foldl insertCategory []

/-- The spec's `summarize(expenses, asOf)` (§4.1): the three aggregates of
`calculateTotals` plus the transaction count (Dashboard.tsx:182) and the
per-transaction average (Dashboard.tsx:195–197, zero when there are no
records). -/
def summarize (l : List Expense) (asOf : CalDate) : DashboardSummary :=
  { totalAmount := totalOf l
    monthlyAmount := monthlyOf asOf l
    transactionCount := l.length
    averageAmount := if 0 < l.length then totalOf l / (l.length : Rat) else 0
    categoryTotals := categoryTotalsOf l }

/-- A JavaScript number that may be non-finite, for the one unguarded
division in the dashboard. -/
inductive JSNum where
  | finite : Rat → JSNum
  | nan : JSNum
  | posInf : JSNum
  | negInf : JSNum
deriving DecidableEq, Repr

/-- JavaScript division on (exact) numbers: division by zero yields `NaN`
for `0 / 0` and `±Infinity` otherwise. -/
def jsDiv (a b : Rat) : JSNum :=
  if b = 0 then
    (if a = 0 then .nan else if 0 < a then .posInf else .negInf)
  else .finite (a / b)

/-- The percentage share displayed per category
(Dashboard.tsx:295: `(category.value / totalExpenses) * 100`); multiplying
by the positive constant 100 preserves `NaN` and `±Infinity`. -/
def percentageShare (value total : Rat) : JSNum :=
  match jsDiv value total with
  | .finite q => .finite (q * 100)
  | x => x

/-- Sum of the amounts of the records of `l` carrying category name `n`. -/
def sumFor (l : List Expense) (n : String) : Rat :=
  ((l.filter fun x => x.category.name == n).map (·.amount)).sum

/-- Specification-side description of the grouping, written from the spec's
words: the first record with an unseen category name opens an entry carrying
that record's name, color and icon; its accumulated amount is that record's
amount plus the amounts of every later record with the same name; the output
is ordered by first occurrence of each distinct name. -/
def specGroup : List Expense → List CategoryTotal
  | [] => []
  | e :: l =>
    ⟨e.category.name, e.amount + sumFor l e.category.name,
      e.category.color, e.category.icon⟩
    :: specGroup (l.filter fun x => x.category.name != e.category.name)
termination_by l => l.length
decreasing_by
  simp only [List.length_cons]
  exact Nat.lt_succ_of_le (List.length_filter_le _ _)

/-- The distinct elements of a list in order of first occurrence. -/
def firstOccur : List String → List String
  | [] => []
  | a :: l => a :: firstOccur (l.filter fun b => b != a)
termination_by l => l.length
decreasing_by
  simp only [List.length_cons]
  exact Nat.lt_succ_of_le (List.length_filter_le _ _)

/-- Adds to a category entry the amounts all records of `l` with its name
would contribute. -/
def bumpBy (l : List Expense) (c : CategoryTotal) : CategoryTotal :=
  { c with value := c.value + sumFor l c.name }

/-- The component state the aggregation writes (the `useState` cells of
Dashboard.tsx:40–44 that `fetchExpenses`/`calculateTotals` assign). -/
structure DashState where
  expenses : List Expense
  totalExpenses : Rat
  monthlyExpenses : Rat
  categoryTotals : List CategoryTotal
  loading : Bool
deriving DecidableEq, Repr

/-- One data refresh of the dashboard (Dashboard.tsx:92–125 followed by
`calculateTotals`): store the fetched records, recompute every aggregate
from them, clear the loading flag. Every state cell is overwritten; nothing
of the previous state `s` is read. -/
def refresh (l : List Expense) (asOf : CalDate) (_s : DashState) : DashState :=
  { expenses := l
    totalExpenses := totalOf l
    monthlyExpenses := monthlyOf asOf l
    categoryTotals := categoryTotalsOf l
    loading := false }

/-- The summary the rendered dashboard presents from its state: the stored
aggregates plus the count (Dashboard.tsx:182) and the average
(Dashboard.tsx:195–197) computed in the render. -/
def viewSummary (s : DashState) : DashboardSummary :=
  { totalAmount := s.totalExpenses
    monthlyAmount := s.monthlyExpenses
    transactionCount := s.expenses.length
    averageAmount :=
      if 0 < s.expenses.length then s.totalExpenses / (s.expenses.length : Rat)
      else 0
    categoryTotals := s.categoryTotals }

/-- A concrete expense with a non-positive amount, violating the store's
`amount > 0` invariant. -/
def negExpense : Expense :=
  ⟨"e1", -1, ⟨2025, 3, 10⟩, ⟨"Food", "#ff0000", "🍔"⟩⟩

/-- A concrete expense with amount zero. -/
def zeroExpense : Expense :=
  ⟨"e2", 0, ⟨2025, 3, 11⟩, ⟨"Food", "#ff0000", "🍔"⟩⟩

/-- A fixed reference date used by the concrete counterexamples. -/
def sampleDate : CalDate := ⟨2025, 3, 15⟩

/-- Three same-category expenses with amounts 10, 20 and 30: the spec's
average-correctness example. -/
def threeExpenses : List Expense :=
  [⟨"t1", 10, ⟨2025, 3, 1⟩, ⟨"Food", "#00ff00", "x"⟩⟩,
   ⟨"t2", 20, ⟨2025, 3, 2⟩, ⟨"Food", "#00ff00", "x"⟩⟩,
   ⟨"t3", 30, ⟨2025, 3, 3⟩, ⟨"Food", "#00ff00", "x"⟩⟩]

theorem foldl_add_amount (l : List Expense) (a : Rat) :
    l.foldl (fun s e => s + e.amount) a = a + (l.map (·.amount)).sum := by
  induction l generalizing a with
  | nil => simp
  | cons e l ih => simp [List.foldl_cons, ih, add_assoc]

theorem totalOf_eq_sum (l : List Expense) : totalOf l = (l.map (·.amount)).sum := by
  simpa [totalOf] using foldl_add_amount l 0

theorem monthlyOf_eq_sum (asOf : CalDate) (l : List Expense) :
    monthlyOf asOf l =
      ((l.filter fun e => decide (inMonth asOf e.date)).map (·.amount)).sum := by
  simpa [monthlyOf] using foldl_add_amount (l.filter fun e => decide (inMonth asOf e.date)) 0

theorem sumFor_nil (n : String) : sumFor [] n = 0 := rfl

theorem sumFor_cons (e : Expense) (l : List Expense) (n : String) :
    sumFor (e :: l) n =
      if e.category.name == n then e.amount + sumFor l n else sumFor l n := by
  simp only [sumFor, List.filter_cons]
  split <;> simp

theorem sumFor_filter (p : Expense → Bool) (l : List Expense) (n : String)
    (hp : ∀ x, x.category.name = n → p x = true) :
    sumFor (l.filter p) n = sumFor l n := by
  induction l with
  | nil => rfl
  | cons e l ih =>
    by_cases hpe : p e = true
    · rw [List.filter_cons, if_pos hpe, sumFor_cons, sumFor_cons, ih]
    · have he : (e.category.name == n) = false := by
        by_cases he' : e.category.name = n
        · exact absurd (hp e he') hpe
        · simp [he']
      rw [List.filter_cons, if_neg hpe, ih, sumFor_cons, he]
      simp

theorem specGroup_nil : specGroup [] = [] := by rw [specGroup]

theorem specGroup_cons (e : Expense) (l : List Expense) :
    specGroup (e :: l) =
      ⟨e.category.name, e.amount + sumFor l e.category.name,
        e.category.color, e.category.icon⟩
      :: specGroup (l.filter fun x => x.category.name != e.category.name) := by
  rw [specGroup]

theorem any_name_map (f : CategoryTotal → CategoryTotal)
    (hf : ∀ c, (f c).name = c.name) (acc : List CategoryTotal) (n : String) :
    ((acc.map f).any fun c => c.name == n) = acc.any fun c => c.name == n := by
  induction acc with
  | nil => rfl
  | cons c acc ih => simp [List.any_cons, hf, ih]

theorem bumpBy_nil (c : CategoryTotal) : bumpBy [] c = c := by
  cases c; simp [bumpBy, sumFor_nil]

theorem foldl_insertCategory (l : List Expense) (acc : List CategoryTotal) :
    l.foldl insertCategory acc =
      acc.map (bumpBy l) ++
        specGroup (l.filter fun e => !(acc.any fun c => c.name == e.category.name)) := by
  induction l generalizing acc with
  | nil =>
    simp [specGroup_nil, bumpBy_nil, List.map_congr_left (fun c _ => bumpBy_nil c)]
  | cons e l ih =>
    rw [List.foldl_cons, ih]
    by_cases h : (acc.any fun c => c.name == e.category.name) = true
    · -- seen name: the map updates the matching entry in place
      have hins : insertCategory acc e =
          acc.map fun c =>
            if c.name == e.category.name then { c with value := c.value + e.amount }
            else c := by
        rw [insertCategory, if_pos h]
      rw [hins]
      have hname : ∀ c : CategoryTotal,
          ((fun c : CategoryTotal =>
            if c.name == e.category.name then { c with value := c.value + e.amount }
            else c) c).name = c.name := by
        intro c; by_cases hc : (c.name == e.category.name) = true <;> simp [hc]
      congr 1
      · rw [List.map_map]
        apply List.map_congr_left
        intro c _
        by_cases hc : (c.name == e.category.name) = true
        · have hc' : c.name = e.category.name := by simpa using hc
          simp [Function.comp, hc, bumpBy, sumFor_cons, hc', add_assoc]
        · have hc' : ¬ c.name = e.category.name := by simpa using hc
          have hc2 : (e.category.name == c.name) = false := by
            simp
            exact fun hx => hc' hx.symm
          simp [Function.comp, hc, bumpBy, sumFor_cons, hc2]
      · rw [List.filter_cons]
        simp only [h, Bool.not_true, Bool.false_eq_true, if_false]
        congr 1
        apply List.filter_congr
        intro x _
        rw [any_name_map _ hname]
    · have h' : (acc.any fun c => c.name == e.category.name) = false := by
        simpa using h
      have hins : insertCategory acc e =
          acc ++ [⟨e.category.name, e.amount, e.category.color, e.category.icon⟩] := by
        rw [insertCategory, if_neg h]
      rw [hins, List.map_append, List.append_assoc, List.filter_cons]
      simp only [h', Bool.not_false, eq_self_iff_true, if_true]
      rw [specGroup_cons]
      have hmem : ∀ c ∈ acc, (c.name == e.category.name) = false := by
        intro c hc
        have := List.any_eq_false.mp h' c hc
        simpa using this
      have hmap : acc.map (bumpBy l) = acc.map (bumpBy (e :: l)) := by
        apply List.map_congr_left
        intro c hc
        have hc2 : (e.category.name == c.name) = false := by
          have := hmem c hc
          simp at this ⊢
          exact fun hx => this hx.symm
        simp [bumpBy, sumFor_cons, hc2]
      have hsum : sumFor
          (l.filter fun x => !(acc.any fun c => c.name == x.category.name))
          e.category.name = sumFor l e.category.name := by
        apply sumFor_filter
        intro x hx
        rw [hx]
        simp [h']
      have hfilt : (l.filter fun x =>
            !((acc ++ [(⟨e.category.name, e.amount, e.category.color,
                e.category.icon⟩ : CategoryTotal)]).any
              fun c => c.name == x.category.name))
          = ((l.filter fun x => !(acc.any fun c => c.name == x.category.name)).filter
              fun x => x.category.name != e.category.name) := by
        rw [List.filter_filter]
        apply List.filter_congr
        intro x _
        simp only [List.any_append, List.any_cons, List.any_nil, Bool.or_false,
          Bool.not_or, bne]
        by_cases hx : x.category.name = e.category.name
        · simp [hx]
        · have hx2 : (e.category.name == x.category.name) = false := by
            simp
            exact fun hy => hx hy.symm
          have hx3 : (x.category.name == e.category.name) = false := by
            simp [hx]
          simp [hx2, hx3]
      rw [hmap]
      rw [hfilt]
      rw [hsum]
      simp [bumpBy]

theorem categoryTotalsOf_eq_specGroup (l : List Expense) :
    categoryTotalsOf l = specGroup l := by
  rw [categoryTotalsOf, foldl_insertCategory l []]
  simp

theorem sum_amount_split (p : Expense → Bool) (l : List Expense) :
    (l.map (·.amount)).sum =
      ((l.filter p).map (·.amount)).sum +
        ((l.filter fun x => !(p x)).map (·.amount)).sum := by
  induction l with
  | nil => simp
  | cons e l ih =>
    by_cases hp : p e = true <;>
      simp [List.filter_cons, hp, ih] <;> ring

theorem specGroup_sum (l : List Expense) :
    ((specGroup l).map (·.value)).sum = (l.map (·.amount)).sum := by
  induction l using specGroup.induct with
  | case1 => simp [specGroup_nil]
  | case2 e l ih =>
    rw [specGroup_cons]
    simp only [List.map_cons, List.sum_cons, ih]
    have hsplit := sum_amount_split (fun x => x.category.name == e.category.name) l
    rw [hsplit, sumFor]
    have : (l.filter fun x => x.category.name != e.category.name)
        = l.filter fun x => !(x.category.name == e.category.name) := by
      apply List.filter_congr
      intro x _
      simp [bne]
    rw [this]
    ring

theorem firstOccur_nil : firstOccur [] = [] := by rw [firstOccur]

theorem firstOccur_cons (a : String) (l : List String) :
    firstOccur (a :: l) = a :: firstOccur (l.filter fun b => b != a) := by
  rw [firstOccur]

theorem specGroup_names (l : List Expense) :
    (specGroup l).map (·.name) = firstOccur (l.map (·.category.name)) := by
  induction l using specGroup.induct with
  | case1 => simp [specGroup_nil, firstOccur_nil]
  | case2 e l ih =>
    rw [specGroup_cons, List.map_cons, List.map_cons, firstOccur_cons, ih]
    congr 1
    rw [List.filter_map]
    apply congrArg
    apply congrArg
    apply List.filter_congr
    intro x _
    rfl

theorem mem_firstOccur (b : String) (l : List String) :
    b ∈ firstOccur l ↔ b ∈ l := by
  induction l using firstOccur.induct with
  | case1 => simp [firstOccur_nil]
  | case2 a l ih =>
    rw [firstOccur_cons]
    simp only [List.mem_cons, ih, List.mem_filter]
    constructor
    · rintro (rfl | ⟨hb, _⟩)
      · exact Or.inl rfl
      · exact Or.inr hb
    · rintro (rfl | hb)
      · exact Or.inl rfl
      · by_cases hba : b = a
        · exact Or.inl hba
        · refine Or.inr ⟨hb, ?_⟩
          simp [hba]

theorem firstOccur_nodup (l : List String) : (firstOccur l).Nodup := by
  induction l using firstOccur.induct with
  | case1 => simp [firstOccur_nil]
  | case2 a l ih =>
    rw [firstOccur_cons]
    refine List.Nodup.cons ?_ ih
    intro hmem
    rw [mem_firstOccur, List.mem_filter] at hmem
    simp at hmem

theorem firstOccur_length_le (l : List String) :
    (firstOccur l).length ≤ l.length := by
  induction l using firstOccur.induct with
  | case1 => simp [firstOccur_nil]
  | case2 a l ih =>
    rw [firstOccur_cons]
    simp only [List.length_cons, Nat.succ_le_succ_iff]
    exact le_trans ih (List.length_filter_le _ _)

theorem firstOccur_length_eq_dedup (l : List String) :
    (firstOccur l).length = l.dedup.length := by
  rw [← List.toFinset_card_of_nodup (firstOccur_nodup l),
    ← List.toFinset_card_of_nodup (List.nodup_dedup l)]
  congr 1
  ext b
  simp [List.mem_toFinset, mem_firstOccur, List.mem_dedup]

theorem daysInMonth_pos (y m : Nat) : 1 ≤ daysInMonth y m := by
  unfold daysInMonth
  split <;> try split <;> omega

theorem inMonth_monthStart (asOf : CalDate) : inMonth asOf (monthStart asOf) := by
  obtain ⟨y, m, d⟩ := asOf
  have := daysInMonth_pos y m
  simp [inMonth, monthStart, monthEnd, dateLe]
  omega

theorem inMonth_monthEnd (asOf : CalDate) : inMonth asOf (monthEnd asOf) := by
  obtain ⟨y, m, d⟩ := asOf
  have := daysInMonth_pos y m
  simp [inMonth, monthStart, monthEnd, dateLe]
  omega

theorem not_inMonth_of_lt_monthStart (asOf d : CalDate)
    (h : dateLt d (monthStart asOf)) : ¬ inMonth asOf d := by
  obtain ⟨y, m, dd⟩ := asOf
  obtain ⟨y', m', d'⟩ := d
  simp [inMonth, monthStart, monthEnd, dateLe, dateLt] at *
  omega

theorem not_inMonth_of_monthEnd_lt (asOf d : CalDate)
    (h : dateLt (monthEnd asOf) d) : ¬ inMonth asOf d := by
  obtain ⟨y, m, dd⟩ := asOf
  obtain ⟨y', m', d'⟩ := d
  simp [inMonth, monthStart, monthEnd, dateLe, dateLt] at *
  omega

theorem prevCalDay_lt_monthStart (asOf : CalDate) (hy : 1 ≤ asOf.year) :
    dateLt (prevCalDay (monthStart asOf)) (monthStart asOf) := by
  obtain ⟨y, m, d⟩ := asOf
  simp only [monthStart, prevCalDay] at *
  by_cases hm : 1 < m <;> simp [hm, dateLt] <;> omega

theorem monthEnd_lt_nextCalDay (asOf : CalDate) :
    dateLt (monthEnd asOf) (nextCalDay (monthEnd asOf)) := by
  obtain ⟨y, m, d⟩ := asOf
  simp only [monthEnd, nextCalDay]
  by_cases hm : m < 12 <;> simp [hm, dateLt]


/-- Claim C1: category totals are computed by iterating records in input
order and grouping by category name — the grouping loop of the code equals
the specification-side `specGroup` (first unseen record opens the entry with
its name, color and icon; later records with the same name only add their
amount), and the output order is the first-occurrence order of the distinct
names in the input. -/
theorem category_grouping_correct (l : List Expense) (asOf : CalDate) :
    (summarize l asOf).categoryTotals = specGroup l ∧
    ((summarize l asOf).categoryTotals).map (·.name) =
      firstOccur (l.map (·.category.name)) := by
  refine ⟨categoryTotalsOf_eq_specGroup l, ?_⟩
  show (categoryTotalsOf l).map (·.name) = _
  rw [categoryTotalsOf_eq_specGroup, specGroup_names]

/-- Claim C2: `monthlyAmount` sums exactly the records whose calendar date
lies in the inclusive range from the first to the last calendar day of
`asOf`'s month; both boundary days are included, and any earlier date — in
particular the day before the first — and any later date — in particular
the day after the last — are excluded. Dates are compared as calendar
dates, without timezone conversion. -/
theorem monthly_window_correct (l : List Expense) (asOf : CalDate)
    (hy : 1 ≤ asOf.year) :
    (summarize l asOf).monthlyAmount =
      ((l.filter fun e =>
        decide (dateLe (monthStart asOf) e.date ∧ dateLe e.date (monthEnd asOf))).map
          (·.amount)).sum ∧
    inMonth asOf (monthStart asOf) ∧
    inMonth asOf (monthEnd asOf) ∧
    ¬ inMonth asOf (prevCalDay (monthStart asOf)) ∧
    ¬ inMonth asOf (nextCalDay (monthEnd asOf)) := by
  refine ⟨?_, inMonth_monthStart asOf, inMonth_monthEnd asOf,
    not_inMonth_of_lt_monthStart asOf _ (prevCalDay_lt_monthStart asOf hy),
    not_inMonth_of_monthEnd_lt asOf _ (monthEnd_lt_nextCalDay asOf)⟩
  show monthlyOf asOf l = _
  rw [monthlyOf_eq_sum]
  rfl

/-- Witness for C2 at the concrete reference date `sampleDate`. -/
theorem monthly_window_correct_witness :
    inMonth sampleDate (monthStart sampleDate) ∧
    ¬ inMonth sampleDate (prevCalDay (monthStart sampleDate)) :=
  ⟨(monthly_window_correct [] sampleDate (by decide)).2.1,
   (monthly_window_correct [] sampleDate (by decide)).2.2.2.1⟩

/-- Claim C3: `totalAmount` is the sum of the `amount` field over all
records, and zero on the empty list. -/
theorem total_amount_correct (l : List Expense) (asOf : CalDate) :
    (summarize l asOf).totalAmount = (l.map (·.amount)).sum ∧
    (summarize [] asOf).totalAmount = 0 :=
  ⟨totalOf_eq_sum l, rfl⟩

/-- Claim C4: `averageAmount` equals `totalAmount` divided by the number of
records when that number is positive, and is zero (not an error) on the
empty input. -/
theorem average_amount_correct (l : List Expense) (asOf : CalDate) :
    (0 < l.length →
      (summarize l asOf).averageAmount =
        (summarize l asOf).totalAmount / (l.length : Rat)) ∧
    (l.length = 0 → (summarize l asOf).averageAmount = 0) := by
  constructor
  · intro h
    simp [summarize, h]
  · intro h
    simp [summarize, h]

/-- Witness for C4: the spec's example `[10, 20, 30]` has average 20, and
the empty list has average 0. -/
theorem average_amount_correct_witness :
    (summarize threeExpenses sampleDate).averageAmount = 20 ∧
    (summarize [] sampleDate).averageAmount = 0 := by
  constructor
  · have h := (average_amount_correct threeExpenses sampleDate).1 (by decide)
    rw [h]
    show totalOf threeExpenses / ((3 : Nat) : Rat) = 20
    norm_num [totalOf, threeExpenses, List.foldl]
  · exact (average_amount_correct [] sampleDate).2 rfl

/-- Claim C5: for non-empty input, `totalAmount` equals the sum of the
accumulated amounts of all produced category totals. -/
theorem sum_invariant_correct (l : List Expense) (asOf : CalDate) (hne : l ≠ []) :
    (summarize l asOf).totalAmount =
      (((summarize l asOf).categoryTotals).map (·.value)).sum := by
  show totalOf l = ((categoryTotalsOf l).map (·.value)).sum
  rw [totalOf_eq_sum, categoryTotalsOf_eq_specGroup, specGroup_sum]

/-- Witness for C5 on the concrete non-empty list `threeExpenses`. -/
theorem sum_invariant_correct_witness :
    (summarize threeExpenses sampleDate).totalAmount =
      (((summarize threeExpenses sampleDate).categoryTotals).map (·.value)).sum :=
  sum_invariant_correct threeExpenses sampleDate (by decide)

/-- Counterexample to C6: on the concrete input `[negExpense]` (amount −1)
the aggregation does not fail — it returns a summary whose `totalAmount` is
−1 and whose single category total carries the −1 — so the record's amount
does contribute to the totals and no validation error exists. -/
theorem malformed_record_counterexample :
    (summarize [negExpense] sampleDate).totalAmount = -1 ∧
    (summarize [negExpense] sampleDate).categoryTotals =
      [⟨"Food", -1, "#ff0000", "🍔"⟩] ∧
    ¬ (summarize [negExpense] sampleDate).totalAmount = 0 := by
  refine ⟨?_, rfl, ?_⟩
  · show totalOf [negExpense] = -1
    simp [totalOf, negExpense]
  · show ¬ totalOf [negExpense] = 0
    simp [totalOf, negExpense]

/-- Amended C6: the aggregation performs no validation; a record with
non-positive amount is aggregated like any other — inserting it anywhere
into the input raises `totalAmount`, and the combined accumulated category
amounts, by exactly its (non-positive) amount. -/
theorem nonpositive_amount_included (l1 l2 : List Expense) (r : Expense)
    (asOf : CalDate) (h : r.amount ≤ 0) :
    (summarize (l1 ++ r :: l2) asOf).totalAmount =
      (summarize (l1 ++ l2) asOf).totalAmount + r.amount ∧
    (((summarize (l1 ++ r :: l2) asOf).categoryTotals).map (·.value)).sum =
      (((summarize (l1 ++ l2) asOf).categoryTotals).map (·.value)).sum + r.amount := by
  constructor
  · show totalOf (l1 ++ r :: l2) = totalOf (l1 ++ l2) + r.amount
    rw [totalOf_eq_sum, totalOf_eq_sum]
    simp [List.map_append, List.sum_append]
    ring
  · show ((categoryTotalsOf (l1 ++ r :: l2)).map (·.value)).sum =
      ((categoryTotalsOf (l1 ++ l2)).map (·.value)).sum + r.amount
    rw [categoryTotalsOf_eq_specGroup, categoryTotalsOf_eq_specGroup,
      specGroup_sum, specGroup_sum]
    simp [List.map_append, List.sum_append]
    ring

/-- Witness for the amended C6 at the concrete record `negExpense`. -/
theorem nonpositive_amount_included_witness :
    (summarize ([] ++ negExpense :: []) sampleDate).totalAmount =
      (summarize ([] ++ []) sampleDate).totalAmount + negExpense.amount :=
  (nonpositive_amount_included [] [] negExpense sampleDate (by decide)).1

/-- Claim C7: on the empty input and any reference date, every metric is
zero, the category-total sequence is empty, and no error is raised (the
function is total). -/
theorem empty_input_summary (asOf : CalDate) :
    summarize [] asOf = ⟨0, 0, 0, 0, []⟩ := rfl

/-- Counterexample to C8: on the concrete input `[zeroExpense]` the total
is zero while one category total exists; the unguarded division makes its
displayed percentage share `NaN`, not zero. -/
theorem percentage_zero_total_counterexample :
    (summarize [zeroExpense] sampleDate).totalAmount = 0 ∧
    ((summarize [zeroExpense] sampleDate).categoryTotals.map
      (fun c => percentageShare c.value (summarize [zeroExpense] sampleDate).totalAmount))
      = [JSNum.nan] := by
  have h0 : (summarize [zeroExpense] sampleDate).totalAmount = 0 := by
    show totalOf [zeroExpense] = 0
    simp [totalOf, zeroExpense]
  refine ⟨h0, ?_⟩
  rw [h0]
  show [percentageShare (0 : Rat) 0] = [JSNum.nan]
  simp [percentageShare, jsDiv]

/-- Amended C8: for every category total of a summary, the percentage
share equals `accumulatedAmount / totalAmount * 100` when `totalAmount` is
non-zero; when `totalAmount` is zero the unguarded division yields a
non-finite JavaScript number (`NaN` or `±Infinity`), never the finite value
zero. -/
theorem percentage_share_cases (l : List Expense) (asOf : CalDate)
    (c : CategoryTotal) (hc : c ∈ (summarize l asOf).categoryTotals) :
    ((summarize l asOf).totalAmount ≠ 0 →
      percentageShare c.value (summarize l asOf).totalAmount =
        .finite (c.value / (summarize l asOf).totalAmount * 100)) ∧
    ((summarize l asOf).totalAmount = 0 →
      percentageShare c.value (summarize l asOf).totalAmount ≠ .finite 0) := by
  constructor
  · intro h
    simp [percentageShare, jsDiv, h]
  · intro h
    rw [h]
    unfold percentageShare jsDiv
    by_cases hv : c.value = 0
    · simp [hv]
    · by_cases hp : 0 < c.value <;> simp [hv, hp]

/-- Witness for the amended C8: a concrete 100% share, and the `NaN` case
at total zero. -/
theorem percentage_share_cases_witness :
    percentageShare 60 (summarize threeExpenses sampleDate).totalAmount =
      .finite 100 ∧
    percentageShare 0 (summarize [zeroExpense] sampleDate).totalAmount ≠
      .finite 0 := by
  constructor
  · have hmem : (⟨"Food", 60, "#00ff00", "x"⟩ : CategoryTotal) ∈
        (summarize threeExpenses sampleDate).categoryTotals := by
      show _ ∈ categoryTotalsOf threeExpenses
      simp [categoryTotalsOf, List.foldl, insertCategory, threeExpenses]
      norm_num
    have hne : (summarize threeExpenses sampleDate).totalAmount ≠ 0 := by
      show ¬ totalOf threeExpenses = 0
      norm_num [totalOf, threeExpenses, List.foldl]
    have h := (percentage_share_cases threeExpenses sampleDate _ hmem).1 hne
    simp only at h
    rw [h]
    show JSNum.finite (60 / totalOf threeExpenses * 100) = _
    norm_num [totalOf, threeExpenses, List.foldl]
  · have hmem : (⟨"Food", 0, "#ff0000", "🍔"⟩ : CategoryTotal) ∈
        (summarize [zeroExpense] sampleDate).categoryTotals := by
      show _ ∈ categoryTotalsOf [zeroExpense]
      simp [categoryTotalsOf, List.foldl, insertCategory, zeroExpense]
    have h0 : (summarize [zeroExpense] sampleDate).totalAmount = 0 := by
      show totalOf [zeroExpense] = 0
      simp [totalOf, zeroExpense]
    exact (percentage_share_cases [zeroExpense] sampleDate _ hmem).2 h0

/-- Claim C9: the aggregation is deterministic and carries no hidden
mutable state — a refresh on the same input and reference date produces the
same dashboard state regardless of the previous state, the summary it
presents is exactly `summarize`, and refreshing twice equals refreshing
once. -/
theorem summarize_deterministic (l : List Expense) (asOf : CalDate)
    (s₁ s₂ : DashState) :
    refresh l asOf s₁ = refresh l asOf s₂ ∧
    viewSummary (refresh l asOf s₁) = summarize l asOf ∧
    refresh l asOf (refresh l asOf s₁) = refresh l asOf s₁ :=
  ⟨rfl, rfl, rfl⟩

/-- Claim C10: the category names in the produced sequence are pairwise
distinct; its length equals the number of distinct category names in the
input, is at most the number of records, and is zero exactly on the empty
input. -/
theorem category_totals_names_distinct (l : List Expense) (asOf : CalDate) :
    (((summarize l asOf).categoryTotals).map (·.name)).Nodup ∧
    ((summarize l asOf).categoryTotals).length =
      ((l.map (·.category.name)).dedup).length ∧
    ((summarize l asOf).categoryTotals).length ≤ l.length ∧
    (((summarize l asOf).categoryTotals).length = 0 ↔ l = []) := by
  have hn : ((summarize l asOf).categoryTotals).map (·.name) =
      firstOccur (l.map (·.category.name)) := by
    show (categoryTotalsOf l).map (·.name) = _
    rw [categoryTotalsOf_eq_specGroup, specGroup_names]
  have hlen : ((summarize l asOf).categoryTotals).length =
      (firstOccur (l.map (·.category.name))).length := by
    rw [← hn, List.length_map]
  refine ⟨?_, ?_, ?_, ?_⟩
  · have h1 := firstOccur_nodup (l.map (·.category.name))
    rw [← hn] at h1
    exact h1
  · rw [hlen, firstOccur_length_eq_dedup]
  · rw [hlen]
    exact le_trans (firstOccur_length_le _) (le_of_eq (List.length_map l _))
  · rw [hlen, firstOccur_length_eq_dedup]
    constructor
    · intro h0
      have h1 := List.length_eq_zero.mp h0
      rw [List.dedup_eq_nil] at h1
      exact List.map_eq_nil_iff.mp h1
    · rintro rfl
      simp
